import Mathlib

/-!
# 2D Cameras: the frame loop of `main.cpp`

A shallow embedding of `src/source/main.cpp`: the square mesh, the per-frame
camera update driven by the W/A/S/D keys, the camera matrix built from the
camera position, its upload as a `mat3` uniform and the vertex shader that
applies it.

The source computes in `float`. Here a scalar is a rational number that
stands for a finite binary32 value, and every `float` operation of the source
that can round (the narrowing of `glfwGetTime()`, the `+=` and `-=` on the
camera position, the products and sums of the shader) rounds its exact result
with `round32`. Negation and the copying of scalars are exact in binary32 and
are not rounded. Statements about exact arithmetic carry the exactness of the
operations as a hypothesis.
-/

namespace Cameras2D

/-! ## Vectors and matrices (glm conventions) -/

/-- Two-component vector, `glm::vec2` / GLSL `vec2`. -/
structure Vec2 where
  x : ℚ
  y : ℚ
  deriving DecidableEq, Repr

/-- Three-component vector, `glm::vec3` / GLSL `vec3`. -/
structure Vec3 where
  x : ℚ
  y : ℚ
  z : ℚ
  deriving DecidableEq, Repr

/-- Four-component vector, GLSL `vec4`. -/
structure Vec4 where
  x : ℚ
  y : ℚ
  z : ℚ
  w : ℚ
  deriving DecidableEq, Repr

/-- Three by three matrix stored as three columns, as `glm::mat3` and GLSL
`mat3` are: `m[i]` is column `i`. -/
structure Mat3 where
  c0 : Vec3
  c1 : Vec3
  c2 : Vec3
  deriving DecidableEq, Repr

/-- The constructor `glm::mat3(x0, y0, z0, x1, y1, z1, x2, y2, z2)`: the nine
scalars fill the matrix column by column. -/
def Mat3.ofScalars (x0 y0 z0 x1 y1 z1 x2 y2 z2 : ℚ) : Mat3 :=
  ⟨⟨x0, y0, z0⟩, ⟨x1, y1, z1⟩, ⟨x2, y2, z2⟩⟩

/-- The identity matrix, `glm::mat3(1)`. -/
def Mat3.identity : Mat3 :=
  Mat3.ofScalars 1 0 0 0 1 0 0 0 1

/-- Matrix times column vector, the `mat3 * vec3` of glm and GLSL: the linear
combination of the columns with the components of the vector. -/
def Mat3.mulVec (m : Mat3) (v : Vec3) : Vec3 :=
  ⟨m.c0.x * v.x + m.c1.x * v.y + m.c2.x * v.z,
   m.c0.y * v.x + m.c1.y * v.y + m.c2.y * v.z,
   m.c0.z * v.x + m.c1.z * v.y + m.c2.z * v.z⟩

/-- Matrix product, the `mat3 * mat3` of glm and GLSL: column `j` of the
product is the left factor applied to column `j` of the right factor. -/
def Mat3.mul (a b : Mat3) : Mat3 :=
  ⟨a.mulVec b.c0, a.mulVec b.c1, a.mulVec b.c2⟩

/-- Determinant by cofactor expansion, as `glm::determinant` computes it. -/
def Mat3.det (m : Mat3) : ℚ :=
  m.c0.x * (m.c1.y * m.c2.z - m.c2.y * m.c1.z)
    - m.c1.x * (m.c0.y * m.c2.z - m.c2.y * m.c0.z)
    + m.c2.x * (m.c0.y * m.c1.z - m.c1.y * m.c0.z)

/-- The matrix as a Mathlib matrix: entry `(i, j)` is component `i` of
column `j`. -/
def Mat3.toMatrix (m : Mat3) : Matrix (Fin 3) (Fin 3) ℚ :=
  Matrix.of ![![m.c0.x, m.c1.x, m.c2.x],
              ![m.c0.y, m.c1.y, m.c2.y],
              ![m.c0.z, m.c1.z, m.c2.z]]

/-- The bottom row of a matrix: the third component of each column. -/
def Mat3.bottomRow (m : Mat3) : Vec3 :=
  ⟨m.c0.z, m.c1.z, m.c2.z⟩

/-- The translation part of an affine matrix: the first two components of the
third column. -/
def Mat3.translationPart (m : Mat3) : Vec2 :=
  ⟨m.c2.x, m.c2.y⟩

/-- The linear two by two part of a matrix is the identity. -/
def Mat3.linearPartIsIdentity (m : Mat3) : Prop :=
  m.c0.x = 1 ∧ m.c0.y = 0 ∧ m.c1.x = 0 ∧ m.c1.y = 1

/-- The pure translation by `t` in glm layout: identity linear part, third
column `(t.x, t.y, 1)`. -/
def translationMatrix (t : Vec2) : Mat3 :=
  Mat3.ofScalars 1 0 0 0 1 0 t.x t.y 1

/-! ## Binary32 arithmetic -/

/-- Nearest integer to a non-negative rational, ties to the even integer. -/
def roundHalfEven (a : ℚ) : ℤ :=
  let f := ⌊a⌋
  let r := a - f
  if r < 1 / 2 then f
  else if 1 / 2 < r then f + 1
  else if f % 2 = 0 then f
  else f + 1

/-- Rounding to the nearest multiple of `2 ^ e`, ties to the even multiple;
the magnitude is rounded and the sign kept, as IEEE 754 does. -/
def roundTo (e : ℤ) (q : ℚ) : ℚ :=
  if q < 0 then -(roundHalfEven (-q / 2 ^ e) * 2 ^ e) else roundHalfEven (q / 2 ^ e) * 2 ^ e

/-- Exponent of the spacing of the binary32 values around `q`: a 24 bit
significand puts it 23 below the binary exponent of `q`, and it is never
below `-149`, the spacing of the subnormal values. -/
def ulpExponent (q : ℚ) : ℤ :=
  max (Int.log 2 |q| - 23) (-149)

/-- The largest finite binary32 value, `FLT_MAX`. -/
def maxFinite32 : ℚ :=
  (2 ^ 24 - 1) * 2 ^ 104

/-- The result of a `float` operation whose exact result is `q`: rounding to
the nearest binary32 value, ties to even (the IEEE 754 default, which C++ and
GLSL use). This is the binary32 result whenever that result is finite, that
is whenever the rounded magnitude is at most `maxFinite32`. Beyond that
binary32 gives an infinity, which a rational cannot stand for; the frame loop
would need a time step of `2 ^ 103` seconds or more to get there. -/
def round32 (q : ℚ) : ℚ :=
  roundTo (ulpExponent q) q

/-- The rational `q` is a finite binary32 value: rounding leaves it as it is
and it is within the finite range. An operation whose exact result is such a
value is exact. -/
def IsBinary32 (q : ℚ) : Prop :=
  round32 q = q ∧ |q| ≤ maxFinite32

instance (q : ℚ) : Decidable (IsBinary32 q) := by
  unfold IsBinary32
  infer_instance

/-! ## The camera -/

/-- The camera matrix of the frame loop (`main`, the declaration of
`translation` and `cameraMatrix = translation`). -/
def cameraMatrix (cameraPosition : Vec2) : Mat3 :=
  let translation := Mat3.ofScalars
    1 0 0
    0 1 0
    (-cameraPosition.x) (-cameraPosition.y) 1
  translation

/-- What `glfwGetKey(window, key) == GLFW_PRESS` gives for the four keys the
loop reads. -/
structure KeyState where
  w : Bool
  a : Bool
  s : Bool
  d : Bool
  deriving DecidableEq, Repr

/-- The four `if (glfwGetKey(...) == GLFW_PRESS)` statements of the loop, in
source order: W, A, S, D. Each `+=` and `-=` is one binary32 operation on a
component of the `glm::vec2`, so its result is rounded. -/
def updateCamera (dt : ℚ) (keys : KeyState) (cameraPosition : Vec2) : Vec2 :=
  let p1 : Vec2 :=
    if keys.w then { cameraPosition with y := round32 (cameraPosition.y + dt) } else cameraPosition
  let p2 : Vec2 := if keys.a then { p1 with x := round32 (p1.x - dt) } else p1
  let p3 : Vec2 := if keys.s then { p2 with y := round32 (p2.y - dt) } else p2
  let p4 : Vec2 := if keys.d then { p3 with x := round32 (p3.x + dt) } else p3
  p4

/-- The memory `&(m[0][0])` points at: the nine scalars of a `glm::mat3`,
column after column. -/
def valuePtr (m : Mat3) : List ℚ :=
  [m.c0.x, m.c0.y, m.c0.z, m.c1.x, m.c1.y, m.c1.z, m.c2.x, m.c2.y, m.c2.z]

/-- The value a `mat3` uniform takes from `glUniformMatrix3fv(location, 1,
transpose, value)`: with `transpose = GL_FALSE` the nine scalars are read
column after column, with `GL_TRUE` row after row. Anything but nine scalars
is no matrix. -/
def glUniformMatrix3fv (transpose : Bool) : List ℚ → Option Mat3
  | [a0, a1, a2, a3, a4, a5, a6, a7, a8] =>
    if transpose then some ⟨⟨a0, a3, a6⟩, ⟨a1, a4, a7⟩, ⟨a2, a5, a8⟩⟩
    else some ⟨⟨a0, a1, a2⟩, ⟨a3, a4, a5⟩, ⟨a6, a7, a8⟩⟩
  | _ => none

/-- One component of the GLSL product `mat3 * vec3` in 32 bit floats: three
products and two sums, each rounded to the nearest binary32 value, summed
from the first column on. -/
def dot32 (m0 m1 m2 v0 v1 v2 : ℚ) : ℚ :=
  round32 (round32 (round32 (m0 * v0) + round32 (m1 * v1)) + round32 (m2 * v2))

/-- The GLSL product `mat3 * vec3` as the shader computes it, in 32 bit
floats. -/
def Mat3.mulVec32 (m : Mat3) (v : Vec3) : Vec3 :=
  ⟨dot32 m.c0.x m.c1.x m.c2.x v.x v.y v.z,
   dot32 m.c0.y m.c1.y m.c2.y v.x v.y v.z,
   dot32 m.c0.z m.c1.z m.c2.z v.x v.y v.z⟩

/-- The value of the shader local `viewPosition`:
`cameraView * worldPosition`. -/
def viewPosition (cameraView : Mat3) (worldPosition : Vec3) : Vec3 :=
  cameraView.mulVec32 worldPosition

/-- The vertex shader `vertexShaderCode`: the value written to
`gl_Position`. -/
def vertexShader (worldMatrix cameraView : Mat3) (in_position : Vec2) : Vec4 :=
  let worldPosition := worldMatrix.mulVec32 ⟨in_position.x, in_position.y, 1⟩
  let vp := viewPosition cameraView worldPosition
  ⟨vp.x, vp.y, vp.z, 1⟩

/-! ## The square mesh -/

/-- The vertex data pushed in `main`. -/
def vertices : List Vec2 :=
  [⟨-1, 1⟩, ⟨1, 1⟩, ⟨-1, -1⟩, ⟨1, -1⟩]

/-- The index data pushed in `main`. -/
def indices : List Nat :=
  [0, 1, 2, 3, 2, 1]

/-- Modelled from the spec: `Shape` is declared in `header/shape.h`, which is
not among the sources. The spec describes it as a single mesh of vertices and
indices. -/
structure Shape where
  vertices : List Vec2
  indices : List Nat
  deriving DecidableEq, Repr

/-- The shape created by `square = new Shape(vertices, indices)`. -/
def square : Shape :=
  ⟨vertices, indices⟩

/-- Modelled from the spec: the draw call is inside `Shape::Draw`
(`header/shape.h`, not among the sources). The spec says the indices form
triangles, that is they are read three at a time; a trailing group of fewer
than three indices forms no triangle. -/
def triangles : List Nat → List (Nat × Nat × Nat)
  | a :: b :: c :: rest => (a, b, c) :: triangles rest
  | _ => []

/-- The positions of the three corners of a triangle of a shape, when all
three indices are valid. -/
def Shape.corners (sh : Shape) (t : Nat × Nat × Nat) : Option (Vec2 × Vec2 × Vec2) :=
  match sh.vertices[t.1]?, sh.vertices[t.2.1]?, sh.vertices[t.2.2]? with
  | some a, some b, some c => some (a, b, c)
  | _, _, _ => none

/-- Signed area of the triangle `a b c` (shoelace formula): positive when the
corners run counter-clockwise, negative when clockwise, zero when
degenerate. -/
def signedArea (a b c : Vec2) : ℚ :=
  ((b.x - a.x) * (c.y - a.y) - (c.x - a.x) * (b.y - a.y)) / 2

/-- Signed areas of the triangles of a shape, in draw order. -/
def Shape.signedAreas (sh : Shape) : List (Option ℚ) :=
  (triangles sh.indices).map fun t =>
    (sh.corners t).map fun abc => signedArea abc.1 abc.2.1 abc.2.2

/-! ## Program state -/

/-- Modelled from the spec: `Transform2D` is declared in
`header/transform2d.h`, which is not among the sources. The spec describes it
as position, rotation and scale composed into a 3x3 matrix. -/
structure Transform2D where
  position : Vec2
  rotation : ℚ
  scale : ℚ
  deriving DecidableEq, Repr

/-- Modelled from the spec: `Transform2D::Rotate` (not among the sources); the
spec calls the step "update rotation", so the angle is added to the
rotation. -/
def Transform2D.Rotate (t : Transform2D) (angle : ℚ) : Transform2D :=
  { t with rotation := t.rotation + angle }

/-- The rectangle passed to `glViewport(x, y, width, height)`. -/
structure Viewport where
  x : Int
  y : Int
  width : Int
  height : Int
  deriving DecidableEq, Repr

/-- The size a window was created with. -/
structure Window where
  width : Int
  height : Int
  deriving DecidableEq, Repr

/-- The call `glfwCreateWindow(width, height, title, nullptr, nullptr)`. -/
def glfwCreateWindow (width height : Int) : Window :=
  ⟨width, height⟩

/-- The mutable state of the program: the globals `cameraPosition` and
`transform`, the window made in `main`, and the viewport rectangle last
requested from the GL context. -/
structure Program where
  window : Window
  viewport : Viewport
  transform : Transform2D
  cameraPosition : Vec2
  deriving DecidableEq, Repr

/-- The effect of `glViewport` on the program state: the rectangle of the
call becomes the requested viewport. -/
def glViewport (x y width height : Int) (s : Program) : Program :=
  { s with viewport := ⟨x, y, width, height⟩ }

/-- The window resize callback `resizeCallback(window, width, height)`. -/
def resizeCallback (width height : Int) (s : Program) : Program :=
  glViewport 0 0 width height s

/-- The state when the main loop is entered: the window of
`glfwCreateWindow(800, 600, ...)`, the viewport of a fresh context (the whole
window), the transform after `SetScale(.25f)` and
`SetPosition(glm::vec2(.25, .25))`, and the zero-initialised global
`cameraPosition`. -/
def setup : Program :=
  let window := glfwCreateWindow 800 600
  { window := window
    viewport := ⟨0, 0, window.width, window.height⟩
    transform := ⟨⟨1 / 4, 1 / 4⟩, 0, 1 / 4⟩
    cameraPosition := ⟨0, 0⟩ }

/-! ## The frame loop -/

/-- The two `mat3` uniforms of the vertex shader, as located by
`glGetUniformLocation`. -/
inductive Uniform where
  | worldMatrix
  | cameraView
  deriving DecidableEq, Repr

/-- The location stored in the global `worldMatrixUniform`. -/
def worldMatrixUniform : Uniform :=
  Uniform.worldMatrix

/-- The location stored in the global `cameraMatrixUniform`. -/
def cameraMatrixUniform : Uniform :=
  Uniform.cameraView

/-- The steps of one iteration of the main loop: library calls and writes to
the program state. `moveCamera` is the block of the four key statements (the
`glfwGetKey` reads and the writes to `cameraPosition` they guard), with the
keys read and the position the block leaves. -/
inductive Step where
  | getTime (time : ℚ)
  | setTime (t : ℚ)
  | clear
  | clearColor
  | rotate (angle : ℚ)
  | moveCamera (keys : KeyState) (cameraPosition : Vec2)
  | buildCameraMatrix (m : Mat3)
  | useProgram (bound : Bool)
  | uniformMatrix3fv (location : Uniform) (transpose : Bool) (value : List ℚ)
  | drawElements (count : Nat)
  | swapBuffers
  | pollEvents (resizes : List (Int × Int))
  deriving DecidableEq, Repr

/-- Modelled from the spec: `Shape::Draw(worldMatrix, uniform)` is in
`header/shape.h`, not among the sources. By the spec a frame uploads two
uniform matrices and issues one draw call, and `main` uploads only the camera
matrix itself, so `Draw` uploads the world matrix and then draws the
indices. -/
def Shape.Draw (sh : Shape) (worldMatrix : Mat3) (uniform : Uniform) : List Step :=
  [Step.uniformMatrix3fv uniform false (valuePtr worldMatrix),
   Step.drawElements sh.indices.length]

/-- What the environment supplies to one iteration: the `double` that
`glfwGetTime()` returns, the state of the four keys as `glfwGetKey` reports
it, and the framebuffer resize events delivered while `glfwPollEvents()`
runs. -/
structure FrameInput where
  time : ℚ
  keys : KeyState
  resizes : List (Int × Int)
  deriving DecidableEq, Repr

/-- The time step of a frame, the local `float dt = glfwGetTime()`: the
`double` narrowed to binary32. -/
def FrameInput.dt (input : FrameInput) : ℚ :=
  round32 input.time

/-- Outcome of one iteration: the program state after it, the local
`cameraMatrix` it built, and its steps in execution order. -/
structure FrameResult where
  program : Program
  cameraMatrix : Mat3
  trace : List Step
  deriving DecidableEq, Repr

/-- Delivery of the pending framebuffer resize events by `glfwPollEvents()`:
the callback set with `glfwSetFramebufferSizeCallback` runs once per event. -/
def glfwPollEvents (resizes : List (Int × Int)) (s : Program) : Program :=
  resizes.foldl (fun st wh => resizeCallback wh.1 wh.2 st) s

/-- One iteration of the `while (!glfwWindowShouldClose(window))` loop of
`main`. `getMatrix` stands for `Transform2D::GetMatrix`, which is not among the
sources. -/
def frame (getMatrix : Transform2D → Mat3) (input : FrameInput) (s : Program) : FrameResult :=
  let dt := input.dt
  let angle := round32 (1 * dt)
  let transform := s.transform.Rotate angle
  let cameraPosition := updateCamera dt input.keys s.cameraPosition
  let cameraMatrix := cameraMatrix cameraPosition
  let drawn : Program := { s with transform := transform, cameraPosition := cameraPosition }
  { program := glfwPollEvents input.resizes drawn
    cameraMatrix := cameraMatrix
    trace :=
      [Step.getTime input.time, Step.setTime 0, Step.clear, Step.clearColor,
       Step.rotate angle,
       Step.moveCamera input.keys cameraPosition,
       Step.buildCameraMatrix cameraMatrix,
       Step.useProgram true,
       Step.uniformMatrix3fv cameraMatrixUniform false (valuePtr cameraMatrix)]
      ++ square.Draw (getMatrix transform) worldMatrixUniform
      ++ [Step.useProgram false, Step.swapBuffers, Step.pollEvents input.resizes] }

/-- The main loop run for a finite sequence of iterations, one per frame
input: the results of the iterations, in order. -/
def mainLoop (getMatrix : Transform2D → Mat3) : List FrameInput → Program → List FrameResult
  | [], _ => []
  | input :: rest, s =>
    let r := frame getMatrix input s
    r :: mainLoop getMatrix rest r.program

/-- The camera matrix built in the last iteration of a run, if there was
one. -/
def lastCameraMatrix (results : List FrameResult) : Option Mat3 :=
  results.getLast?.map fun r => r.cameraMatrix

/-! ## Vocabulary of the specification -/

/-- One for a pressed key, zero for a released one. -/
def pressed (b : Bool) : ℚ :=
  if b then 1 else 0

/-- Exact arithmetic in the key statements of one frame: the exact sum each
statement of a pressed key computes is a binary32 value, so no `+=` or `-=`
of the frame rounds. The statements of S and D work on what those of W and A
left. -/
def ExactKeyUpdates (dt : ℚ) (keys : KeyState) (p : Vec2) : Prop :=
  (keys.w = true → IsBinary32 (p.y + dt)) ∧
    (keys.a = true → IsBinary32 (p.x - dt)) ∧
    (keys.s = true → IsBinary32 ((if keys.w then p.y + dt else p.y) - dt)) ∧
    (keys.d = true → IsBinary32 ((if keys.a then p.x - dt else p.x) + dt))

/-- Exact arithmetic in a run of the loop from the camera position `p`: the
key statements of every frame are exact at the position the frames before it
left. -/
def ExactRun : List FrameInput → Vec2 → Prop
  | [], _ => True
  | f :: rest, p =>
    ExactKeyUpdates f.dt f.keys p ∧ ExactRun rest (updateCamera f.dt f.keys p)

/-- Sum of the time steps of the frames in which the chosen key is pressed. -/
def pressedTime (key : KeyState → Bool) (frames : List FrameInput) : ℚ :=
  ((frames.filter fun f => key f.keys).map fun f => f.dt).sum

/-- The accumulated W/A/S/D offset of a sequence of frames: time with D minus
time with A along x, time with W minus time with S along y. -/
def accumulatedOffset (frames : List FrameInput) : Vec2 :=
  ⟨pressedTime (fun k => k.d) frames - pressedTime (fun k => k.a) frames,
   pressedTime (fun k => k.w) frames - pressedTime (fun k => k.s) frames⟩

/-- The kinds of step the specification names for the frame loop. -/
inductive StepKind where
  | poll
  | update
  | build
  | upload
  | draw
  | swap
  deriving DecidableEq, Repr

/-- The kind of a step, for the steps the specification names; clearing the
screen, reading the timer and binding the shader program have none. Polling
is `glfwPollEvents()`, and the block of key statements belongs to the update
of the camera offset. -/
def Step.kind : Step → Option StepKind
  | Step.rotate _ => some StepKind.update
  | Step.moveCamera _ _ => some StepKind.update
  | Step.buildCameraMatrix _ => some StepKind.build
  | Step.uniformMatrix3fv _ _ _ => some StepKind.upload
  | Step.drawElements _ => some StepKind.draw
  | Step.swapBuffers => some StepKind.swap
  | Step.pollEvents _ => some StepKind.poll
  | _ => none

/-- The other reading of "poll input": the block of key statements, which
begins with the `glfwGetKey` reads, counts as polling; all other steps are
classified as before. -/
def Step.kindKeysAsPoll : Step → Option StepKind
  | Step.moveCamera _ _ => some StepKind.poll
  | st => st.kind

/-- Position of a kind in the order the specification gives: poll, update,
build, upload, draw, swap. -/
def StepKind.specRank : StepKind → Nat
  | StepKind.poll => 0
  | StepKind.update => 1
  | StepKind.build => 2
  | StepKind.upload => 3
  | StepKind.draw => 4
  | StepKind.swap => 5

/-- Position of a kind in the order of the loop body: update, build, upload,
draw, swap, poll. -/
def StepKind.loopRank : StepKind → Nat
  | StepKind.update => 0
  | StepKind.build => 1
  | StepKind.upload => 2
  | StepKind.draw => 3
  | StepKind.swap => 4
  | StepKind.poll => 5

/-- The kinds of the named steps of a trace, in execution order. -/
def kinds (classify : Step → Option StepKind) (trace : List Step) : List StepKind :=
  trace.filterMap classify

/-- No step of a later kind precedes a step of an earlier kind, for the given
classification of the steps and ranking of the kinds. -/
def InOrder (classify : Step → Option StepKind) (rank : StepKind → Nat)
    (trace : List Step) : Prop :=
  (kinds classify trace).Pairwise fun a b => rank a ≤ rank b

instance (classify : Step → Option StepKind) (rank : StepKind → Nat) (trace : List Step) :
    Decidable (InOrder classify rank trace) := by
  unfold InOrder
  infer_instance

/-- What a step uploads to the uniform `u`: the transpose flag and the data,
for a `glUniformMatrix3fv` on that uniform. -/
def Step.uploadTo (u : Uniform) : Step → Option (Bool × List ℚ)
  | Step.uniformMatrix3fv location transpose value =>
    if location = u then some (transpose, value) else none
  | _ => none

/-- The uploads to the uniform `u` in a trace, in execution order. -/
def uploadsTo (u : Uniform) (trace : List Step) : List (Bool × List ℚ) :=
  trace.filterMap (Step.uploadTo u)

/-- The indices of the three corners of a triangle. -/
def cornerIndices (t : Nat × Nat × Nat) : List Nat :=
  [t.1, t.2.1, t.2.2]

/-- A valid affine transform with identity linear part: bottom row
`(0, 0, 1)`, identity two by two block, determinant one, invertible. -/
def Mat3.IsUnitAffine (m : Mat3) : Prop :=
  m.bottomRow = ⟨0, 0, 1⟩ ∧ m.linearPartIsIdentity ∧ m.det = 1 ∧ IsUnit m.toMatrix

/-- Frame inputs used to evaluate the loop on concrete data: W and D held for
half a second, then A held for a quarter of a second while the window is
resized. -/
def sampleFrames : List FrameInput :=
  [⟨1 / 2, ⟨true, false, false, true⟩, []⟩,
   ⟨1 / 4, ⟨false, true, false, false⟩, [(640, 480)]⟩]

/-- A stand-in for `Transform2D::GetMatrix` on concrete data: the scale and
position of the transform, without its rotation. -/
def sampleGetMatrix (t : Transform2D) : Mat3 :=
  Mat3.ofScalars t.scale 0 0 0 t.scale 0 t.position.x t.position.y 1

/-! ## Auxiliary facts -/

/-- The product of the embedding is the matrix product. -/
theorem Mat3.toMatrix_mul (a b : Mat3) : (a.mul b).toMatrix = a.toMatrix * b.toMatrix := by
  ext i j
  fin_cases i <;> fin_cases j <;>
    simp [Mat3.toMatrix, Mat3.mul, Mat3.mulVec, Matrix.mul_apply, Fin.sum_univ_three]

/-- The identity of the embedding is the identity matrix. -/
theorem Mat3.toMatrix_identity : Mat3.identity.toMatrix = 1 := by
  ext i j
  fin_cases i <;> fin_cases j <;> rfl

/-- The cofactor expansion is the determinant. -/
theorem Mat3.det_eq (m : Mat3) : m.det = m.toMatrix.det := by
  rw [Matrix.det_fin_three]
  simp [Mat3.toMatrix, Mat3.det]
  ring

/-- The binary exponent of a positive rational is pinned by the two powers of
two around it. -/
theorem log_two_eq (a : ℚ) (k : ℤ) (h0 : 0 < a) (h1 : (2 : ℚ) ^ k ≤ a)
    (h2 : a < (2 : ℚ) ^ (k + 1)) : Int.log 2 a = k := by
  have hb : 1 < (2 : ℕ) := by norm_num
  have hle : k ≤ Int.log 2 a := by
    rw [← Int.zpow_le_iff_le_log hb h0]
    exact_mod_cast h1
  have hlt : Int.log 2 a < k + 1 := by
    rw [← Int.lt_zpow_iff_log_lt hb h0]
    exact_mod_cast h2
  omega

/-- Rounding with the binary exponent known. -/
theorem round32_of_log (q : ℚ) (k : ℤ) (h : Int.log 2 |q| = k) :
    round32 q = roundTo (max (k - 23) (-149)) q := by
  simp only [round32, ulpExponent, h]

/-- Rounding of a positive rational between two consecutive powers of two. -/
theorem round32_of_bounds (q : ℚ) (k : ℤ) (h0 : 0 < q) (h1 : (2 : ℚ) ^ k ≤ q)
    (h2 : q < (2 : ℚ) ^ (k + 1)) : round32 q = roundTo (max (k - 23) (-149)) q := by
  apply round32_of_log
  rw [abs_of_pos h0]
  exact log_two_eq q k h0 h1 h2

/-- Zero rounds to zero on every grid. -/
theorem roundTo_zero (e : ℤ) : roundTo e 0 = 0 := by
  simp [roundTo, roundHalfEven]

/-- Rounding on a grid commutes with negation. -/
theorem roundTo_neg (e : ℤ) (q : ℚ) : roundTo e (-q) = -roundTo e q := by
  rcases lt_trichotomy q 0 with h | h | h
  · have h1 : ¬ (-q < 0) := by linarith
    simp only [roundTo, h, h1, if_true, if_false, neg_neg]
  · subst h
    simp [roundTo_zero]
  · have h1 : -q < 0 := by linarith
    have h2 : ¬ (q < 0) := by linarith
    simp only [roundTo, h1, h2, if_true, if_false, neg_neg]

/-- Binary32 rounding commutes with negation. -/
theorem round32_neg (q : ℚ) : round32 (-q) = -round32 q := by
  simp only [round32, ulpExponent, abs_neg, roundTo_neg]

/-- Zero is a binary32 value. -/
theorem round32_zero : round32 0 = 0 := by
  simp only [round32, roundTo_zero]

/-- One is a binary32 value. -/
theorem round32_one : round32 1 = 1 := by
  rw [round32_of_log 1 0 (by simp)]
  norm_num [roundTo, roundHalfEven]

/-- Zero is a finite binary32 value. -/
theorem isBinary32_zero : IsBinary32 0 := by
  refine ⟨round32_zero, ?_⟩
  norm_num [maxFinite32]

/-- One is a finite binary32 value. -/
theorem isBinary32_one : IsBinary32 1 := by
  refine ⟨round32_one, ?_⟩
  norm_num [maxFinite32]

/-- One half is a binary32 value. -/
theorem round32_half : round32 (1 / 2) = 1 / 2 := by
  rw [round32_of_bounds _ (-1) (by norm_num) (by norm_num) (by norm_num)]
  norm_num [roundTo, roundHalfEven]

/-- One quarter is a binary32 value. -/
theorem round32_quarter : round32 (1 / 4) = 1 / 4 := by
  rw [round32_of_bounds _ (-2) (by norm_num) (by norm_num) (by norm_num)]
  norm_num [roundTo, roundHalfEven]

/-- One half is a finite binary32 value. -/
theorem isBinary32_half : IsBinary32 (1 / 2) := by
  refine ⟨round32_half, ?_⟩
  norm_num [maxFinite32, abs_of_pos]

/-- One quarter is a finite binary32 value. -/
theorem isBinary32_quarter : IsBinary32 (1 / 4) := by
  refine ⟨round32_quarter, ?_⟩
  norm_num [maxFinite32, abs_of_pos]

/-- The integer `2 ^ 24` is a finite binary32 value. -/
theorem isBinary32_two_pow_24 : IsBinary32 16777216 := by
  refine ⟨?_, ?_⟩
  · rw [round32_of_bounds _ 24 (by norm_num) (by norm_num) (by norm_num)]
    norm_num [roundTo, roundHalfEven]
  · norm_num [maxFinite32]

/-- The integer `2 ^ 24 - 1` is a binary32 value. -/
theorem round32_two_pow_24_pred : round32 16777215 = 16777215 := by
  rw [round32_of_bounds _ 23 (by norm_num) (by norm_num) (by norm_num)]
  norm_num [roundTo, roundHalfEven]

/-- The integer `2 ^ 24 + 1` lies halfway between two binary32 values and
rounds to the even one, `2 ^ 24`. -/
theorem round32_two_pow_24_succ : round32 16777217 = 16777216 := by
  rw [round32_of_bounds _ 24 (by norm_num) (by norm_num) (by norm_num)]
  norm_num [roundTo, roundHalfEven, Int.floor_eq_iff]

/-- The binary32 value nearest to one tenth. -/
theorem isBinary32_tenth : IsBinary32 (13421773 / 134217728) := by
  refine ⟨?_, ?_⟩
  · rw [round32_of_bounds _ (-4) (by norm_num) (by norm_num) (by norm_num)]
    norm_num [roundTo, roundHalfEven, Int.floor_eq_iff]
  · norm_num [maxFinite32, abs_of_pos]

/-- One quarter minus the binary32 tenth needs 25 bits: it lies halfway
between two binary32 values and rounds to the even one. -/
theorem round32_quarter_sub_tenth :
    round32 (20132659 / 134217728) = 5033165 / 33554432 := by
  rw [round32_of_bounds _ (-3) (by norm_num) (by norm_num) (by norm_num)]
  norm_num [roundTo, roundHalfEven, Int.floor_eq_iff]

/-- With exact arithmetic the four key statements have a closed form. -/
theorem updateCamera_exact (dt : ℚ) (keys : KeyState) (p : Vec2)
    (h : ExactKeyUpdates dt keys p) :
    updateCamera dt keys p =
      ⟨p.x + dt * (pressed keys.d - pressed keys.a),
       p.y + dt * (pressed keys.w - pressed keys.s)⟩ := by
  obtain ⟨w, a, s, d⟩ := keys
  obtain ⟨x, y⟩ := p
  obtain ⟨hw, ha, hs, hd⟩ := h
  cases w <;> cases a <;> cases s <;> cases d <;>
    simp only [Bool.false_eq_true, if_false, if_true, false_implies, true_implies] at hw ha hs hd <;>
    simp only [updateCamera, pressed, if_true, if_false, Bool.false_eq_true, Vec2.mk.injEq] <;>
    (try rw [hw.1]) <;> (try rw [ha.1]) <;> (try rw [hs.1]) <;> (try rw [hd.1]) <;>
    exact ⟨by ring, by ring⟩

/-- Resize events leave the camera position alone. -/
theorem glfwPollEvents_cameraPosition (resizes : List (Int × Int)) (s : Program) :
    (glfwPollEvents resizes s).cameraPosition = s.cameraPosition := by
  unfold glfwPollEvents
  induction resizes generalizing s with
  | nil => rfl
  | cons e rest ih => simp only [List.foldl_cons]; rw [ih]; rfl

/-- Resize events leave the transform alone. -/
theorem glfwPollEvents_transform (resizes : List (Int × Int)) (s : Program) :
    (glfwPollEvents resizes s).transform = s.transform := by
  unfold glfwPollEvents
  induction resizes generalizing s with
  | nil => rfl
  | cons e rest ih => simp only [List.foldl_cons]; rw [ih]; rfl

/-- The camera position after an iteration is the one the key statements
computed. -/
theorem frame_cameraPosition (gm : Transform2D → Mat3) (input : FrameInput) (s : Program) :
    (frame gm input s).program.cameraPosition = updateCamera input.dt input.keys s.cameraPosition := by
  simp [frame, glfwPollEvents_cameraPosition]

/-- The matrix an iteration builds comes from the camera position after the
key statements of that iteration. -/
theorem frame_cameraMatrix (gm : Transform2D → Mat3) (input : FrameInput) (s : Program) :
    (frame gm input s).cameraMatrix = cameraMatrix (frame gm input s).program.cameraPosition := by
  simp [frame, glfwPollEvents_cameraPosition]

/-- Every result of a run is the result of one iteration. -/
theorem mem_mainLoop (gm : Transform2D → Mat3) (frames : List FrameInput) (s : Program)
    (r : FrameResult) (h : r ∈ mainLoop gm frames s) :
    ∃ input s0, r = frame gm input s0 := by
  induction frames generalizing s with
  | nil => simp [mainLoop] at h
  | cons f rest ih =>
    simp only [mainLoop, List.mem_cons] at h
    rcases h with h | h
    · exact ⟨f, s, h⟩
    · exact ih _ h

/-- A run has one result per frame. -/
theorem mainLoop_length (gm : Transform2D → Mat3) (frames : List FrameInput) (s : Program) :
    (mainLoop gm frames s).length = frames.length := by
  induction frames generalizing s with
  | nil => rfl
  | cons f rest ih => simp [mainLoop, ih]

/-- Time with a key pressed, one frame at a time. -/
theorem pressedTime_cons (key : KeyState → Bool) (f : FrameInput) (rest : List FrameInput) :
    pressedTime key (f :: rest) = f.dt * pressed (key f.keys) + pressedTime key rest := by
  unfold pressedTime pressed
  cases h : key f.keys <;> simp [List.filter_cons, h]

/-- The accumulated offset, one frame at a time. -/
theorem accumulatedOffset_cons (f : FrameInput) (rest : List FrameInput) :
    accumulatedOffset (f :: rest) =
      ⟨f.dt * (pressed f.keys.d - pressed f.keys.a) + (accumulatedOffset rest).x,
       f.dt * (pressed f.keys.w - pressed f.keys.s) + (accumulatedOffset rest).y⟩ := by
  simp only [accumulatedOffset, pressedTime_cons, Vec2.mk.injEq]
  constructor <;> ring

/-- No frames, no offset. -/
theorem accumulatedOffset_nil : accumulatedOffset [] = ⟨0, 0⟩ := by
  simp [accumulatedOffset, pressedTime]

/-- The camera matrix built in the last iteration of a non-empty run with
exact arithmetic, from any starting state. -/
theorem lastCameraMatrix_mainLoop (gm : Transform2D → Mat3) (frames : List FrameInput)
    (s : Program) (h : frames ≠ []) (hexact : ExactRun frames s.cameraPosition) :
    lastCameraMatrix (mainLoop gm frames s) =
      some (cameraMatrix ⟨s.cameraPosition.x + (accumulatedOffset frames).x,
                          s.cameraPosition.y + (accumulatedOffset frames).y⟩) := by
  induction frames generalizing s with
  | nil => exact absurd rfl h
  | cons f rest ih =>
    obtain ⟨hf, hrest⟩ := hexact
    have hupd := updateCamera_exact f.dt f.keys s.cameraPosition hf
    have hpos : ∀ t : Vec2,
        (⟨(updateCamera f.dt f.keys s.cameraPosition).x + t.x,
          (updateCamera f.dt f.keys s.cameraPosition).y + t.y⟩ : Vec2) =
        ⟨s.cameraPosition.x + (f.dt * (pressed f.keys.d - pressed f.keys.a) + t.x),
         s.cameraPosition.y + (f.dt * (pressed f.keys.w - pressed f.keys.s) + t.y)⟩ := by
      intro t
      rw [hupd]
      simp only [Vec2.mk.injEq]
      constructor <;> ring
    rw [accumulatedOffset_cons]
    cases rest with
    | nil =>
      simp only [mainLoop, lastCameraMatrix, List.getLast?_singleton, Option.map_some',
        frame_cameraMatrix, frame_cameraPosition, hupd, accumulatedOffset_nil,
        add_zero]
    | cons g rest2 =>
      have hrest2 : ExactRun (g :: rest2) (frame gm f s).program.cameraPosition := by
        rw [frame_cameraPosition]
        exact hrest
      have ih2 := ih (frame gm f s).program (List.cons_ne_nil g rest2) hrest2
      unfold lastCameraMatrix at ih2 ⊢
      simp only [mainLoop] at ih2 ⊢
      rw [List.getLast?_cons_cons, ih2, frame_cameraPosition, hpos]

/-- The sample frames run from the initial camera position with exact
arithmetic. -/
theorem exactRun_sampleFrames : ExactRun sampleFrames setup.cameraPosition := by
  have h1 : ExactKeyUpdates (round32 (1 / 2)) ⟨true, false, false, true⟩ ⟨0, 0⟩ := by
    rw [round32_half]
    refine ⟨fun _ => ?_, fun h => absurd h (by decide), fun h => absurd h (by decide),
      fun _ => ?_⟩
    · simpa using isBinary32_half
    · simpa using isBinary32_half
  have hp : updateCamera (round32 (1 / 2)) ⟨true, false, false, true⟩ ⟨0, 0⟩ = ⟨1 / 2, 1 / 2⟩ := by
    rw [updateCamera_exact _ _ _ h1, round32_half]
    simp [pressed]
  have h2 : ExactKeyUpdates (round32 (1 / 4)) ⟨false, true, false, false⟩ ⟨1 / 2, 1 / 2⟩ := by
    rw [round32_quarter]
    refine ⟨fun h => absurd h (by decide), fun _ => ?_, fun h => absurd h (by decide),
      fun h => absurd h (by decide)⟩
    have h4 : (1 / 2 : ℚ) - 1 / 4 = 1 / 4 := by norm_num
    show IsBinary32 (1 / 2 - 1 / 4)
    rw [h4]
    exact isBinary32_quarter
  refine ⟨h1, ?_, trivial⟩
  show ExactKeyUpdates (round32 (1 / 4)) ⟨false, true, false, false⟩
    (updateCamera (round32 (1 / 2)) ⟨true, false, false, true⟩ ⟨0, 0⟩)
  rw [hp]
  exact h2

/-- The camera matrix is a unit affine transform, whatever the position. -/
theorem cameraMatrix_isUnitAffine (p : Vec2) : (cameraMatrix p).IsUnitAffine := by
  have hdet : (cameraMatrix p).det = 1 := by
    simp [cameraMatrix, Mat3.ofScalars, Mat3.det]
  refine ⟨rfl, ⟨rfl, rfl, rfl, rfl⟩, hdet, ?_⟩
  rw [Matrix.isUnit_iff_isUnit_det, ← Mat3.det_eq, hdet]
  exact isUnit_one

/-- The view position of a world point under the camera matrix, in 32 bit
floats: the products with the zeros and ones of the matrix are exact, so each
coordinate is one rounded subtraction. -/
theorem viewPosition_cameraMatrix (c : Vec2) (wx wy : ℚ)
    (hwx : IsBinary32 wx) (hwy : IsBinary32 wy) (hcx : IsBinary32 c.x) (hcy : IsBinary32 c.y) :
    viewPosition (cameraMatrix c) ⟨wx, wy, 1⟩ =
      ⟨round32 (wx - c.x), round32 (wy - c.y), 1⟩ := by
  simp only [viewPosition, Mat3.mulVec32, dot32, cameraMatrix, Mat3.ofScalars, one_mul,
    zero_mul, mul_one, round32_zero, round32_one, add_zero, zero_add, hwx.1, hwy.1,
    round32_neg, hcx.1, hcy.1, ← sub_eq_add_neg]

/-- The upload with `transpose = GL_FALSE` gives the uniform the matrix whose
scalars were passed. -/
theorem glUniformMatrix3fv_valuePtr (m : Mat3) :
    glUniformMatrix3fv false (valuePtr m) = some m := by
  simp [glUniformMatrix3fv, valuePtr]

/-- Without exact arithmetic opposite keys do not cancel: at `y = 2 ^ 24` with
a time step of one, W rounds `2 ^ 24 + 1` back to `2 ^ 24` and S then takes
one off. -/
theorem opposite_keys_round :
    (updateCamera 1 ⟨true, false, true, false⟩ ⟨0, 16777216⟩).y = 16777215 := by
  have h1 : (16777216 : ℚ) + 1 = 16777217 := by norm_num
  have h2 : (16777216 : ℚ) - 1 = 16777215 := by norm_num
  simp only [updateCamera, if_true, if_false, Bool.false_eq_true, h1, h2,
    round32_two_pow_24_succ, round32_two_pow_24_pred]

/-- Without exact arithmetic a run does not accumulate the offset: after D
for `2 ^ 24` seconds and D for one more second, from the initial state, the
camera matrix has translation `-2 ^ 24` along x, while the time with D adds
up to `2 ^ 24 + 1`. -/
theorem run_rounds :
    lastCameraMatrix (mainLoop sampleGetMatrix
        [⟨16777216, ⟨false, false, false, true⟩, []⟩, ⟨1, ⟨false, false, false, true⟩, []⟩]
        setup) =
        some (Mat3.ofScalars 1 0 0 0 1 0 (-16777216) (-0) 1) ∧
      pressedTime (fun k => k.d)
        [⟨16777216, ⟨false, false, false, true⟩, []⟩, ⟨1, ⟨false, false, false, true⟩, []⟩] =
        16777217 := by
  have h0 : (0 : ℚ) + 16777216 = 16777216 := by norm_num
  have h1 : (16777216 : ℚ) + 1 = 16777217 := by norm_num
  constructor
  · simp only [mainLoop, lastCameraMatrix, List.getLast?_cons_cons, List.getLast?_singleton,
      Option.map_some', frame_cameraMatrix, frame_cameraPosition, FrameInput.dt, setup,
      updateCamera, if_true, if_false, Bool.false_eq_true, isBinary32_two_pow_24.1, h0, h1,
      round32_one, round32_two_pow_24_succ]
    rfl
  · simp only [pressedTime, FrameInput.dt, List.filter_cons, if_true, List.filter_nil,
      List.map_cons, List.map_nil, List.sum_cons, List.sum_nil, isBinary32_two_pow_24.1,
      round32_one]
    norm_num

/-! ## The claims -/

/-- C1: for every non-empty finite sequence of frames run from a state whose
camera position is zero, if the arithmetic of the key statements is exact in
every frame, the camera matrix built in the last frame is the identity with
translation column `(-X, -Y, 1)`, where `(X, Y)` is the accumulated W/A/S/D
offset of the frames (time with D minus time with A, time with W minus time
with S, the time step of a frame being its `float dt`). -/
theorem lastCameraMatrix_negates_accumulatedOffset (gm : Transform2D → Mat3)
    (frames : List FrameInput) (s : Program)
    (hzero : s.cameraPosition = ⟨0, 0⟩) (hne : frames ≠ [])
    (hexact : ExactRun frames s.cameraPosition) :
    lastCameraMatrix (mainLoop gm frames s) =
        some (Mat3.ofScalars 1 0 0 0 1 0
          (-(pressedTime (fun k => k.d) frames - pressedTime (fun k => k.a) frames))
          (-(pressedTime (fun k => k.w) frames - pressedTime (fun k => k.s) frames)) 1) ∧
      (lastCameraMatrix (mainLoop gm frames s)).map Mat3.translationPart =
        some ⟨-(accumulatedOffset frames).x, -(accumulatedOffset frames).y⟩ := by
  have h := lastCameraMatrix_mainLoop gm frames s hne hexact
  rw [hzero] at h
  simp only [zero_add] at h
  rw [h]
  exact ⟨rfl, rfl⟩

/-- Witness for C1: the sample frames run from the initial state. -/
theorem lastCameraMatrix_negates_accumulatedOffset_witness :
    setup.cameraPosition = ⟨0, 0⟩ ∧ sampleFrames ≠ [] ∧
      ExactRun sampleFrames setup.cameraPosition ∧
      lastCameraMatrix (mainLoop sampleGetMatrix sampleFrames setup) =
        some (Mat3.ofScalars 1 0 0 0 1 0
          (-(pressedTime (fun k => k.d) sampleFrames - pressedTime (fun k => k.a) sampleFrames))
          (-(pressedTime (fun k => k.w) sampleFrames - pressedTime (fun k => k.s) sampleFrames))
          1) :=
  ⟨rfl, List.cons_ne_nil _ _, exactRun_sampleFrames,
    (lastCameraMatrix_negates_accumulatedOffset sampleGetMatrix sampleFrames setup rfl
      (List.cons_ne_nil _ _) exactRun_sampleFrames).1⟩

/-- C2: the camera matrix is the inverse of the pure translation by the camera
position: their product is the identity in either order, both for the glm
product of the embedding and as Mathlib matrices. -/
theorem cameraMatrix_inverse_translationMatrix (c : Vec2) :
    (cameraMatrix c).mul (translationMatrix c) = Mat3.identity ∧
      (translationMatrix c).mul (cameraMatrix c) = Mat3.identity ∧
      (cameraMatrix c).toMatrix * (translationMatrix c).toMatrix = 1 ∧
      (translationMatrix c).toMatrix * (cameraMatrix c).toMatrix = 1 := by
  have h1 : (cameraMatrix c).mul (translationMatrix c) = Mat3.identity := by
    simp [cameraMatrix, translationMatrix, Mat3.mul, Mat3.mulVec, Mat3.identity, Mat3.ofScalars]
  have h2 : (translationMatrix c).mul (cameraMatrix c) = Mat3.identity := by
    simp [cameraMatrix, translationMatrix, Mat3.mul, Mat3.mulVec, Mat3.identity, Mat3.ofScalars]
  refine ⟨h1, h2, ?_, ?_⟩
  · rw [← Mat3.toMatrix_mul, h1, Mat3.toMatrix_identity]
  · rw [← Mat3.toMatrix_mul, h2, Mat3.toMatrix_identity]

/-- C3, as stated, fails: with the camera at the binary32 value nearest to
one tenth and the world point at one quarter, the shader's view position has
x coordinate `5033165 / 2 ^ 25`, not the exact difference
`20132659 / 2 ^ 27`, which is not a binary32 value and so cannot be the value
of a `float` whatever the rounding. -/
theorem viewPosition_rounds :
    IsBinary32 (1 / 4) ∧ IsBinary32 0 ∧ IsBinary32 (13421773 / 134217728) ∧
      (glUniformMatrix3fv false (valuePtr (cameraMatrix ⟨13421773 / 134217728, 0⟩))).map
          (fun cameraView => viewPosition cameraView ⟨1 / 4, 0, 1⟩) =
        some ⟨5033165 / 33554432, 0, 1⟩ ∧
      (glUniformMatrix3fv false (valuePtr (cameraMatrix ⟨13421773 / 134217728, 0⟩))).map
          (fun cameraView => viewPosition cameraView ⟨1 / 4, 0, 1⟩) ≠
        some ⟨1 / 4 - 13421773 / 134217728, 0 - 0, 1⟩ ∧
      ¬ IsBinary32 (1 / 4 - 13421773 / 134217728) := by
  have hd : (1 / 4 : ℚ) - 13421773 / 134217728 = 20132659 / 134217728 := by norm_num
  have hv : (glUniformMatrix3fv false (valuePtr (cameraMatrix ⟨13421773 / 134217728, 0⟩))).map
      (fun cameraView => viewPosition cameraView ⟨1 / 4, 0, 1⟩) =
      some ⟨5033165 / 33554432, 0, 1⟩ := by
    rw [glUniformMatrix3fv_valuePtr, Option.map_some',
      viewPosition_cameraMatrix ⟨13421773 / 134217728, 0⟩ (1 / 4) 0 isBinary32_quarter
        isBinary32_zero isBinary32_tenth isBinary32_zero]
    simp only [hd, round32_quarter_sub_tenth, sub_zero, round32_zero]
  refine ⟨isBinary32_quarter, isBinary32_zero, isBinary32_tenth, hv, ?_, ?_⟩
  · rw [hv]
    norm_num
  · intro h
    have h1 := h.1
    rw [hd, round32_quarter_sub_tenth] at h1
    norm_num at h1

/-- C3, amended: for a binary32 camera position and world point whose
differences stay in the finite range, with the camera matrix uploaded from
`&(cameraMatrix[0][0])` with `transpose = GL_FALSE`, the shader's view
position of `(wx, wy, 1)` is `(fl(wx - cx), fl(wy - cy), 1)`, each difference
rounded to binary32; it is `(wx - cx, wy - cy, 1)` exactly when both
differences are binary32 values; the world point at the camera position goes
to the origin `(0, 0, 1)`; and that upload is the one a frame performs for the
camera position it has after its key updates. -/
theorem viewPosition_uploaded_cameraMatrix (c : Vec2) (wx wy : ℚ)
    (gm : Transform2D → Mat3) (input : FrameInput) (s : Program)
    (hwx : IsBinary32 wx) (hwy : IsBinary32 wy)
    (hcx : IsBinary32 c.x) (hcy : IsBinary32 c.y)
    (_hdx : |wx - c.x| ≤ maxFinite32) (_hdy : |wy - c.y| ≤ maxFinite32) :
    (glUniformMatrix3fv false (valuePtr (cameraMatrix c))).map
        (fun cameraView => viewPosition cameraView ⟨wx, wy, 1⟩) =
        some ⟨round32 (wx - c.x), round32 (wy - c.y), 1⟩ ∧
      ((glUniformMatrix3fv false (valuePtr (cameraMatrix c))).map
          (fun cameraView => viewPosition cameraView ⟨wx, wy, 1⟩) =
          some ⟨wx - c.x, wy - c.y, 1⟩ ↔
        round32 (wx - c.x) = wx - c.x ∧ round32 (wy - c.y) = wy - c.y) ∧
      (glUniformMatrix3fv false (valuePtr (cameraMatrix c))).map
        (fun cameraView => viewPosition cameraView ⟨c.x, c.y, 1⟩) =
        some ⟨0, 0, 1⟩ ∧
      uploadsTo Uniform.cameraView (frame gm input s).trace =
        [(false, valuePtr (cameraMatrix (frame gm input s).program.cameraPosition))] := by
  have hv : (glUniformMatrix3fv false (valuePtr (cameraMatrix c))).map
      (fun cameraView => viewPosition cameraView ⟨wx, wy, 1⟩) =
      some ⟨round32 (wx - c.x), round32 (wy - c.y), 1⟩ := by
    rw [glUniformMatrix3fv_valuePtr, Option.map_some',
      viewPosition_cameraMatrix c wx wy hwx hwy hcx hcy]
  refine ⟨hv, ?_, ?_, ?_⟩
  · rw [hv]
    simp only [Option.some.injEq, Vec3.mk.injEq, and_true]
  · rw [glUniformMatrix3fv_valuePtr, Option.map_some',
      viewPosition_cameraMatrix c c.x c.y hcx hcy hcx hcy]
    simp only [sub_self, round32_zero]
  · rw [frame_cameraPosition]
    simp [frame, Shape.Draw, cameraMatrixUniform, worldMatrixUniform, uploadsTo, Step.uploadTo]

/-- Witness for C3: the camera at `(1/2, 0)` and the world point `(1, 0)`. -/
theorem viewPosition_uploaded_cameraMatrix_witness :
    IsBinary32 1 ∧ IsBinary32 0 ∧ IsBinary32 (1 / 2) ∧
      |(1 : ℚ) - 1 / 2| ≤ maxFinite32 ∧ |(0 : ℚ) - 0| ≤ maxFinite32 ∧
      (glUniformMatrix3fv false (valuePtr (cameraMatrix ⟨1 / 2, 0⟩))).map
        (fun cameraView => viewPosition cameraView ⟨1, 0, 1⟩) =
        some ⟨round32 (1 - 1 / 2), round32 (0 - 0), 1⟩ :=
  ⟨isBinary32_one, isBinary32_zero, isBinary32_half,
    by rw [abs_le]; constructor <;> norm_num [maxFinite32],
    by rw [abs_le]; constructor <;> norm_num [maxFinite32],
    (viewPosition_uploaded_cameraMatrix ⟨1 / 2, 0⟩ 1 0 sampleGetMatrix ⟨1, ⟨false, false, false, false⟩, []⟩
      setup isBinary32_one isBinary32_zero isBinary32_half isBinary32_zero
      (by rw [abs_le]; constructor <;> norm_num [maxFinite32])
      (by rw [abs_le]; constructor <;> norm_num [maxFinite32])).1⟩

/-- C5: for every camera position the camera matrix has bottom row
`(0, 0, 1)`, identity linear part and determinant one, and is invertible; the
same holds for the matrix built by any single frame and by every frame of any
run of the loop. -/
theorem cameraMatrix_valid_affine (p : Vec2) (gm : Transform2D → Mat3)
    (input : FrameInput) (frames : List FrameInput) (s : Program) :
    ((cameraMatrix p).bottomRow = ⟨0, 0, 1⟩ ∧
        (cameraMatrix p).linearPartIsIdentity ∧
        (cameraMatrix p).det = 1 ∧
        (cameraMatrix p).toMatrix.det = 1 ∧
        IsUnit (cameraMatrix p).toMatrix) ∧
      (frame gm input s).cameraMatrix.IsUnitAffine ∧
      ∀ i : Fin (mainLoop gm frames s).length,
        ((mainLoop gm frames s).get i).cameraMatrix.IsUnitAffine := by
  obtain ⟨hb, hl, hd, hu⟩ := cameraMatrix_isUnitAffine p
  refine ⟨⟨hb, hl, hd, ?_, hu⟩, ?_, ?_⟩
  · rw [← Mat3.det_eq, hd]
  · rw [frame_cameraMatrix]
    exact cameraMatrix_isUnitAffine _
  · intro i
    obtain ⟨f, s0, hr⟩ := mem_mainLoop gm frames s _ (List.get_mem _ i.1 i.2)
    rw [hr, frame_cameraMatrix]
    exact cameraMatrix_isUnitAffine _

/-- C6: the square has 4 vertices and 6 indices, every index is below 4, the
indices read three at a time are the triangles `(0,1,2)` and `(3,2,1)`, each
with three distinct indices and three distinct corner positions, and together
they use all four vertices `(-1,1)`, `(1,1)`, `(-1,-1)`, `(1,-1)`. -/
theorem square_mesh_wellformed :
    square.vertices.length = 4 ∧
      square.indices.length = 6 ∧
      (square.indices.all fun i => decide (i < square.vertices.length)) = true ∧
      triangles square.indices = [(0, 1, 2), (3, 2, 1)] ∧
      ((triangles square.indices).all fun t => decide (cornerIndices t).Nodup) = true ∧
      (triangles square.indices).map square.corners =
        [some (⟨-1, 1⟩, ⟨1, 1⟩, ⟨-1, -1⟩), some (⟨1, -1⟩, ⟨-1, -1⟩, ⟨1, 1⟩)] ∧
      square.vertices.Nodup ∧
      ((triangles square.indices).flatMap cornerIndices).toFinset =
        Finset.range square.vertices.length ∧
      square.vertices = [⟨-1, 1⟩, ⟨1, 1⟩, ⟨-1, -1⟩, ⟨1, -1⟩] := by
  refine ⟨rfl, rfl, by decide, rfl, by decide, rfl, ?_, by decide, rfl⟩
  simp [square, vertices]
  norm_num

/-- C7, as stated, fails: in the first sample frame run from the initial state
the named steps are update, update, build, upload, upload, draw, swap, poll,
so the buffers are swapped before input is polled and the trace is not in the
order poll, update, build, upload, draw, swap. Counting the key reads as the
polling does not help: they come after the rotation update. -/
theorem frame_not_in_spec_order :
    kinds Step.kind (frame sampleGetMatrix ⟨1 / 2, ⟨true, false, false, true⟩, []⟩ setup).trace =
        [StepKind.update, StepKind.update, StepKind.build, StepKind.upload,
         StepKind.upload, StepKind.draw, StepKind.swap, StepKind.poll] ∧
      ¬ InOrder Step.kind StepKind.specRank
        (frame sampleGetMatrix ⟨1 / 2, ⟨true, false, false, true⟩, []⟩ setup).trace ∧
      ¬ InOrder Step.kindKeysAsPoll StepKind.specRank
        (frame sampleGetMatrix ⟨1 / 2, ⟨true, false, false, true⟩, []⟩ setup).trace := by
  have hk : kinds Step.kind
      (frame sampleGetMatrix ⟨1 / 2, ⟨true, false, false, true⟩, []⟩ setup).trace =
      [StepKind.update, StepKind.update, StepKind.build, StepKind.upload,
       StepKind.upload, StepKind.draw, StepKind.swap, StepKind.poll] := rfl
  have hp : kinds Step.kindKeysAsPoll
      (frame sampleGetMatrix ⟨1 / 2, ⟨true, false, false, true⟩, []⟩ setup).trace =
      [StepKind.update, StepKind.poll, StepKind.build, StepKind.upload,
       StepKind.upload, StepKind.draw, StepKind.swap, StepKind.poll] := rfl
  refine ⟨hk, ?_, ?_⟩
  · unfold InOrder
    rw [hk]
    decide
  · unfold InOrder
    rw [hp]
    decide

/-- C7, amended: every iteration performs its named steps in the order of the
loop body: rotation and camera offset are updated, the camera matrix is
built, the two uniform matrices are uploaded, one draw is issued, the buffers
are swapped, and input is polled last. No step of a later kind in this order
precedes one of an earlier kind, and the only camera matrix uploaded is the
one built from the camera position after that frame's key updates. -/
theorem frame_steps_in_loop_order (gm : Transform2D → Mat3) (input : FrameInput)
    (s : Program) :
    kinds Step.kind (frame gm input s).trace =
        [StepKind.update, StepKind.update, StepKind.build, StepKind.upload,
         StepKind.upload, StepKind.draw, StepKind.swap, StepKind.poll] ∧
      InOrder Step.kind StepKind.loopRank (frame gm input s).trace ∧
      (frame gm input s).trace.getLast? = some (Step.pollEvents input.resizes) ∧
      (frame gm input s).program.cameraPosition =
        updateCamera input.dt input.keys s.cameraPosition ∧
      (frame gm input s).cameraMatrix =
        cameraMatrix (updateCamera input.dt input.keys s.cameraPosition) ∧
      uploadsTo Uniform.cameraView (frame gm input s).trace =
        [(false, valuePtr (cameraMatrix (updateCamera input.dt input.keys s.cameraPosition)))] := by
  have hk : kinds Step.kind (frame gm input s).trace =
      [StepKind.update, StepKind.update, StepKind.build, StepKind.upload,
       StepKind.upload, StepKind.draw, StepKind.swap, StepKind.poll] := rfl
  refine ⟨hk, ?_, rfl, frame_cameraPosition gm input s, rfl, ?_⟩
  · unfold InOrder
    rw [hk]
    decide
  · simp [frame, Shape.Draw, cameraMatrixUniform, worldMatrixUniform, uploadsTo, Step.uploadTo]

/-- C8: the window is created 800 by 600, and the resize callback for a
framebuffer of width `w` and height `h` sets the viewport to origin `(0, 0)`,
width `w`, height `h` and changes nothing else: camera position, transform
and window are as before. The same holds when the event is the last one
delivered while a frame polls. -/
theorem resizeCallback_sets_viewport (w h : Int) (s : Program)
    (gm : Transform2D → Mat3) (dt : ℚ) (keys : KeyState) (earlier : List (Int × Int)) :
    setup.window = ⟨800, 600⟩ ∧
      (resizeCallback w h s).viewport = ⟨0, 0, w, h⟩ ∧
      (resizeCallback w h s).cameraPosition = s.cameraPosition ∧
      (resizeCallback w h s).transform = s.transform ∧
      (resizeCallback w h s).window = s.window ∧
      resizeCallback w h s = { s with viewport := ⟨0, 0, w, h⟩ } ∧
      (frame gm ⟨dt, keys, earlier ++ [(w, h)]⟩ s).program.viewport = ⟨0, 0, w, h⟩ ∧
      (frame gm ⟨dt, keys, earlier ++ [(w, h)]⟩ s).program.cameraPosition =
        (frame gm ⟨dt, keys, []⟩ s).program.cameraPosition ∧
      (frame gm ⟨dt, keys, earlier ++ [(w, h)]⟩ s).program.transform =
        (frame gm ⟨dt, keys, []⟩ s).program.transform := by
  refine ⟨rfl, rfl, rfl, rfl, rfl, rfl, ?_, ?_, ?_⟩
  · simp [frame, glfwPollEvents, List.foldl_append, resizeCallback, glViewport]
  · rw [frame_cameraPosition, frame_cameraPosition]
    rfl
  · simp only [frame, glfwPollEvents_transform]
    rfl

/-- C10: the triangles `(0,1,2)` and `(3,2,1)` of the square each have signed
area -2, so both are clockwise and neither is degenerate, and their unsigned
areas sum to 4, the area of the square from `(-1,-1)` to `(1,1)`. -/
theorem square_triangles_same_winding :
    square.signedAreas = [some (-2), some (-2)] ∧
      signedArea ⟨-1, 1⟩ ⟨1, 1⟩ ⟨-1, -1⟩ = -2 ∧
      signedArea ⟨1, -1⟩ ⟨-1, -1⟩ ⟨1, 1⟩ = -2 ∧
      (square.signedAreas.all fun a => decide (a.getD 0 < 0)) = true ∧
      (square.signedAreas.map fun a => |a.getD 0|).sum = 4 ∧
      (square.signedAreas.map fun a => |a.getD 0|).sum = (1 - (-1)) * (1 - (-1)) := by
  have h1 : signedArea ⟨-1, 1⟩ ⟨1, 1⟩ ⟨-1, -1⟩ = -2 := by
    simp only [signedArea]
    norm_num
  have h2 : signedArea ⟨1, -1⟩ ⟨-1, -1⟩ ⟨1, 1⟩ = -2 := by
    simp only [signedArea]
    norm_num
  have hs : square.signedAreas = [some (-2), some (-2)] := by
    simp only [Shape.signedAreas, square, indices, vertices, triangles, Shape.corners,
      List.map_cons, List.map_nil]
    simp [h1, h2]
  refine ⟨hs, h1, h2, ?_, ?_, ?_⟩
  · rw [hs]
    simp
  · rw [hs]
    simp
    norm_num
  · rw [hs]
    simp
    norm_num

end Cameras2D
